import Mathlib

/-!
Shallow embedding of `sample_code.py`: a `UserManager` (user accounts with a
read-through cache and a database collaborator) and a `DataProcessor` (a
four-stage clean / transform / validate / enrich pipeline over record
batches), together with theorems settling the specification claims.

Python records are dictionaries; they are embedded as association lists from
field names to a small universe of values.  Python dictionaries have unique
keys, so lookup takes the first matching entry and assignment replaces the
first matching entry (appending when the key is absent), which agrees with
dictionary semantics on key-duplicate-free lists.
-/

/-- A Python value as it occurs in the records of the pipeline: integers,
strings, booleans, `None`, and the flat string-to-string mapping returned by
`fetch_metadata`. -/
inductive Value where
  | vInt (n : Int)
  | vStr (s : String)
  | vBool (b : Bool)
  | vNone
  | vMap (m : List (String × String))
deriving Repr, DecidableEq

/-- A record of the pipeline: a Python dict, embedded as an association list. -/
abbrev Record : Type := List (String × Value)

/-- Python `record.get(k)`: first entry with key `k`, if any. -/
def recGet : Record → String → Option Value
  | [], _ => none
  | p :: rest, k => if p.1 = k then some p.2 else recGet rest k

/-- Python `record[k] = v`: replace the first entry with key `k`, or append. -/
def recSet : Record → String → Value → Record
  | [], k, v => [(k, v)]
  | p :: rest, k, v => if p.1 = k then (k, v) :: rest else p :: recSet rest k v

/-- Python `record.get(k)` with the `None` default for an absent key. -/
def pyGetD (r : Record) (k : String) : Value :=
  (recGet r k).getD Value.vNone

/-- Python `k in record`: key membership. -/
def hasKey (r : Record) (k : String) : Bool :=
  (recGet r k).isSome

/-- Python truthiness of a record: an empty dict is falsy. -/
abbrev recEmpty (r : Record) : Prop := r = []

/-- State of `DataProcessor`: the configuration fields read in `__init__` and
the running counter of processed records. -/
structure DPState where
  batch_size : Nat
  max_retries : Nat
  processed_count : Nat
deriving Repr, DecidableEq

/-- The loop of `clean_data`: `seen` is `seen_ids`, `cleaned` the accumulator.
A truthy record whose `id` key is absent and whose `record.get('id')` value
(Python `None`) is not in `seen_ids` reaches `seen_ids.add(record['id'])`,
which raises `KeyError`. -/
def cleanLoop (seen : List Value) (cleaned : List Record) :
    List Record → Except String (List Record)
  | [] => Except.ok cleaned
  | record :: rest =>
    if recEmpty record ∨ pyGetD record "id" ∈ seen then
      cleanLoop seen cleaned rest
    else
      match recGet record "id" with
      | some v => cleanLoop (v :: seen) (cleaned ++ [record]) rest
      | none => Except.error "KeyError: id"

/-- Embeds `DataProcessor.clean_data`: drop falsy records and records whose `id`
was already seen earlier in the same batch. -/
def clean_data (data : List Record) : Except String (List Record) :=
  cleanLoop [] [] data

/-- Non-accumulator form of the clean loop, used to characterise its output:
a record survives exactly when it is truthy and its id value has not occurred
in an earlier surviving record, so the first occurrence of each id wins. -/
def specClean (seen : List Value) : List Record → List Record
  | [] => []
  | record :: rest =>
    if recEmpty record ∨ pyGetD record "id" ∈ seen then
      specClean seen rest
    else
      record :: specClean (pyGetD record "id" :: seen) rest

/-- Body of the `transform` loop for one record: stamp `processed_at` with the
current timestamp `ts` (the external clock is passed in as a parameter) and set
`normalized_name` to `record.get('name', '').strip().lower()`; a present
non-string `name` raises `AttributeError` on `.strip()`. -/
def transform1 (ts : String) (record : Record) : Except String Record :=
  let r1 := recSet record "processed_at" (Value.vStr ts)
  match recGet r1 "name" with
  | none => Except.ok (recSet r1 "normalized_name" (Value.vStr ""))
  | some (Value.vStr s) =>
      Except.ok (recSet r1 "normalized_name" (Value.vStr s.trim.toLower))
  | some _ => Except.error "AttributeError: strip"

/-- Run a per-record stage over a batch, stopping at the first raised error,
as the Python `for` loops do. -/
def mapE (f : Record → Except String Record) :
    List Record → Except String (List Record)
  | [] => Except.ok []
  | r :: rest =>
    match f r with
    | Except.error e => Except.error e
    | Except.ok r2 =>
      match mapE f rest with
      | Except.error e => Except.error e
      | Except.ok rest2 => Except.ok (r2 :: rest2)

/-- Embeds `DataProcessor.transform`. -/
def transform (ts : String) (data : List Record) : Except String (List Record) :=
  mapE (transform1 ts) data

/-- Embeds `DataProcessor.is_valid_record`: all of `id`, `name`, `email` present. -/
def is_valid_record (record : Record) : Bool :=
  (["id", "name", "email"].all fun field => hasKey record field)

/-- Embeds `DataProcessor.validate`: keep only valid records. -/
def validate (data : List Record) : List Record :=
  data.filter is_valid_record

/-- Embeds `DataProcessor.fetch_metadata`: the stubbed metadata collaborator. -/
def fetch_metadata (_record_id : Value) : List (String × String) :=
  [("source", "api"), ("version", "1.0")]

/-- Body of the `enrich` loop for one record: set `enriched = True` and
`metadata = fetch_metadata(record['id'])`; a missing `id` raises `KeyError`. -/
def enrich1 (record : Record) : Except String Record :=
  let r1 := recSet record "enriched" (Value.vBool true)
  match recGet r1 "id" with
  | some v => Except.ok (recSet r1 "metadata" (Value.vMap (fetch_metadata v)))
  | none => Except.error "KeyError: id"

/-- Embeds `DataProcessor.enrich`. -/
def enrich (data : List Record) : Except String (List Record) :=
  mapE enrich1 data

/-- Embeds `DataProcessor.process`: clean, transform, validate, enrich in that order,
then increment `processed_count` by the length of the enriched output.  An
exception raised in a stage propagates and leaves the state unchanged. -/
def process (st : DPState) (ts : String) (data : List Record) :
    Except String (List Record) × DPState :=
  match clean_data data with
  | Except.error e => (Except.error e, st)
  | Except.ok cleaned =>
    match transform ts cleaned with
    | Except.error e => (Except.error e, st)
    | Except.ok transformed =>
      let validated := validate transformed
      match enrich validated with
      | Except.error e => (Except.error e, st)
      | Except.ok enriched =>
        (Except.ok enriched,
          { st with processed_count := st.processed_count + enriched.length })

/-- Modelled from the spec: bcrypt is an external primitive (a salted hash
whose verification succeeds exactly for the hashed password), so a hash is
represented by the password it was built from together with the salt. -/
structure Hash where
  pw : String
  salt : Nat
deriving Repr, DecidableEq

/-- Modelled from the spec: the `User` class is constructed by `add_user` and
its fields `id`, `email`, `password_hash` are read by the source, but the
class itself is not defined in the source file; the spec's Account data model
gives it an opaque id, a display name, an email and a password hash. -/
structure User where
  id : String
  name : String
  email : String
  password_hash : Hash
deriving Repr, DecidableEq

/-- Embeds `UserManager.hash_password`: `bcrypt.hashpw(password, bcrypt.gensalt())`;
the fresh salt is passed in as a parameter. -/
def hash_password (password : String) (salt : Nat) : Hash :=
  { pw := password, salt := salt }

/-- Embeds `UserManager.verify_password`: `bcrypt.checkpw(password, hash)`. -/
def verify_password (password : String) (h : Hash) : Bool :=
  password == h.pw

/-- A value stored in the cache collaborator: `user:{email}` keys hold user
objects, `session:{token}` keys hold user-id strings. -/
inductive CVal where
  | user (u : User)
  | uid (i : String)
deriving Repr, DecidableEq

/-- Cache collaborator `get(key)`: first entry with the key, if any. -/
def cacheGet (c : List (String × CVal)) (k : String) : Option CVal :=
  match c.find? (fun p => p.1 = k) with
  | some p => some p.2
  | none => none

/-- Cache collaborator `set(key, value, ex)`: overwrite the key (expiry hints
are not modelled; no claim depends on expiry). -/
def cacheSet (c : List (String × CVal)) (k : String) (v : CVal) :
    List (String × CVal) :=
  (k, v) :: c.filter (fun p => p.1 ≠ k)

/-- Cache collaborator `delete(key)`. -/
def cacheDelete (c : List (String × CVal)) (k : String) :
    List (String × CVal) :=
  c.filter (fun p => p.1 ≠ k)

/-- Database collaborator `insert_user` (durable record store, modelled as a
list of users). -/
def dbInsertUser (db : List User) (u : User) : List User :=
  db ++ [u]

/-- Database collaborator `delete_user(id)`. -/
def dbDeleteUser (db : List User) (user_id : String) : List User :=
  db.filter (fun u => u.id ≠ user_id)

/-- Database collaborator `query_user_by_email(email)`. -/
def dbQueryUserByEmail (db : List User) (email : String) : Option User :=
  db.find? (fun u => u.email = email)

/-- State of `UserManager`: the database and cache collaborators and the
fields set in `__init__`. -/
structure UMState where
  db : List User
  cache : List (String × CVal)
  users : List User
  session_timeout : Nat
deriving Repr, DecidableEq

/-- Embeds `UserManager.__init__`: empty in-memory user list, one-hour timeout. -/
def initUM (db : List User) (cache : List (String × CVal)) : UMState :=
  { db := db, cache := cache, users := [], session_timeout := 3600 }

/-- Embeds `UserManager.email_exists`: scan of the in-memory list only. -/
def email_exists (s : UMState) (email : String) : Bool :=
  s.users.any (fun u => u.email == email)

/-- Embeds `UserManager.add_user`: raise on duplicate email, else hash the password,
append to the in-memory list, cache under `user:{email}`, persist to the
database.  The fresh user id and bcrypt salt come from external primitives and
are passed in as parameters.  An exception leaves the state unchanged. -/
def add_user (s : UMState) (uid : String) (salt : Nat)
    (name email password : String) : Except String User × UMState :=
  if email_exists s email then
    (Except.error ("Email " ++ email ++ " already registered"), s)
  else
    let hashed_password := hash_password password salt
    let user : User :=
      { id := uid, name := name, email := email, password_hash := hashed_password }
    let s1 := { s with users := s.users ++ [user] }
    let s2 := { s1 with
      cache := cacheSet s1.cache ("user:" ++ email) (CVal.user user) }
    let s3 := { s2 with db := dbInsertUser s2.db user }
    (Except.ok user, s3)

/-- Embeds `UserManager.get_user_by_email`: cache-first; on a miss query the database
and repopulate the cache on a hit.  `user:{email}` keys only ever hold user
values; a `uid`-typed value under such a key never arises from the operations
and is treated as a miss. -/
def get_user_by_email (s : UMState) (email : String) : Option User × UMState :=
  match cacheGet s.cache ("user:" ++ email) with
  | some (CVal.user u) => (some u, s)
  | _ =>
    match dbQueryUserByEmail s.db email with
    | some user =>
        (some user,
          { s with cache := cacheSet s.cache ("user:" ++ email) (CVal.user user) })
    | none => (none, s)

/-- Embeds `UserManager.create_session`: the fresh `uuid4` token is passed in as a
parameter; store `session:{token} -> user.id` in the cache. -/
def create_session (s : UMState) (tok : String) (user : User) :
    String × UMState :=
  (tok, { s with cache := cacheSet s.cache ("session:" ++ tok) (CVal.uid user.id) })

/-- Embeds `UserManager.authenticate`: cache-first lookup, then password check, then
session creation. -/
def authenticate (s : UMState) (tok email password : String) :
    (Bool × Option String) × UMState :=
  let g := get_user_by_email s email
  match g.1 with
  | none => ((false, none), g.2)
  | some user =>
    if verify_password password user.password_hash then
      let cs := create_session g.2 tok user
      ((true, some cs.1), cs.2)
    else ((false, none), g.2)

/-- Embeds `UserManager.remove_user`: filter the in-memory list by id, delete the
`user_sessions:{id}` cache key, delete the durable record, return `True`. -/
def remove_user (s : UMState) (user_id : String) : Bool × UMState :=
  let s1 := { s with users := s.users.filter (fun u => u.id ≠ user_id) }
  let s2 := { s1 with cache := cacheDelete s1.cache ("user_sessions:" ++ user_id) }
  let s3 := { s2 with db := dbDeleteUser s2.db user_id }
  (true, s3)

/-- One call to the account manager, with the externally generated fresh
values (user id, salt, session token) as arguments. -/
inductive Op where
  | addUser (uid : String) (salt : Nat) (name email password : String)
  | removeUser (uid : String)
  | auth (tok email password : String)
  | getByEmail (email : String)

/-- The state after one call (results discarded). -/
def runOp (s : UMState) : Op → UMState
  | Op.addUser uid salt name email password =>
      (add_user s uid salt name email password).2
  | Op.removeUser uid => (remove_user s uid).2
  | Op.auth tok email password => (authenticate s tok email password).2
  | Op.getByEmail email => (get_user_by_email s email).2

/-- The state after a sequence of calls. -/
def runOps (s : UMState) (ops : List Op) : UMState :=
  ops.foldl runOp s

/-- No two accounts of a list share an email. -/
def emailsUnique (l : List User) : Prop :=
  l.Pairwise (fun a b => a.email ≠ b.email)

/-! Concrete fixtures used to instantiate the theorems. -/

/-- A sample account. -/
def uJohn : User :=
  { id := "u1", name := "John Doe", email := "john@example.com",
    password_hash := hash_password "securepass123" 7 }

/-- A manager state holding `uJohn` in the list, the cache and the database. -/
def sOne : UMState :=
  { db := [uJohn], cache := [("user:john@example.com", CVal.user uJohn)],
    users := [uJohn], session_timeout := 3600 }

/-- A manager state holding `uJohn` in the database only. -/
def sDbOnly : UMState :=
  { db := [uJohn], cache := [], users := [uJohn], session_timeout := 3600 }

/-- A sample pipeline record. -/
def rBob : Record :=
  [("id", Value.vInt 1), ("name", Value.vStr "  Bob  "),
   ("email", Value.vStr "b@x.com")]

/-- Record `rBob` after the full pipeline with timestamp `T`. -/
def rBobOut : Record :=
  [("id", Value.vInt 1), ("name", Value.vStr "  Bob  "),
   ("email", Value.vStr "b@x.com"), ("processed_at", Value.vStr "T"),
   ("normalized_name", Value.vStr ("  Bob  ".trim.toLower)),
   ("enriched", Value.vBool true),
   ("metadata", Value.vMap [("source", "api"), ("version", "1.0")])]

/-- A second record sharing `rBob`'s id. -/
def rDup : Record :=
  [("id", Value.vInt 1), ("name", Value.vStr "A2"),
   ("email", Value.vStr "a2@x.com")]

/-- A truthy record with no `id` key. -/
def rNoId : Record := [("name", Value.vStr "x")]

/-- The processor state of the demo configuration. -/
def stDemo : DPState := { batch_size := 500, max_retries := 5, processed_count := 0 }

/-! Association-list lemmas for record update and lookup. -/

theorem recGet_recSet_same (r : Record) (k : String) (v : Value) :
    recGet (recSet r k v) k = some v := by
  induction r with
  | nil => simp [recSet, recGet]
  | cons p rest ih =>
    by_cases h : p.1 = k
    · simp [recSet, recGet, h]
    · simp [recSet, recGet, h, ih]

theorem recGet_recSet_ne (r : Record) (k k2 : String) (v : Value) (h : k2 ≠ k) :
    recGet (recSet r k v) k2 = recGet r k2 := by
  induction r with
  | nil => simp [recSet, recGet, Ne.symm h]
  | cons p rest ih =>
    by_cases hp : p.1 = k
    · simp [recSet, recGet, hp, Ne.symm h]
    · simp [recSet, recGet, hp, ih]

/-! Lemmas about running a stage over a batch. -/

theorem mapE_ok_length (f : Record → Except String Record)
    (l out : List Record) (h : mapE f l = Except.ok out) :
    out.length = l.length := by
  induction l generalizing out with
  | nil =>
    unfold mapE at h
    cases h
    rfl
  | cons r rest ih =>
    unfold mapE at h
    cases hf : f r with
    | error e => rw [hf] at h; cases h
    | ok r2 =>
      rw [hf] at h
      cases hm : mapE f rest with
      | error e => rw [hm] at h; cases h
      | ok rest2 =>
        rw [hm] at h
        cases h
        simp [ih rest2 hm]

theorem mapE_ok_mem (f : Record → Except String Record)
    (l out : List Record) (h : mapE f l = Except.ok out) :
    ∀ r ∈ out, ∃ a ∈ l, f a = Except.ok r := by
  induction l generalizing out with
  | nil =>
    unfold mapE at h
    cases h
    intro r hr
    cases hr
  | cons a rest ih =>
    unfold mapE at h
    cases hf : f a with
    | error e => rw [hf] at h; cases h
    | ok r2 =>
      rw [hf] at h
      cases hm : mapE f rest with
      | error e => rw [hm] at h; cases h
      | ok rest2 =>
        rw [hm] at h
        cases h
        intro r hr
        rcases List.mem_cons.mp hr with h1 | h2
        · exact ⟨a, List.mem_cons_self a rest, by rw [hf, h1]⟩
        · rcases ih rest2 hm r h2 with ⟨b, hb, hfb⟩
          exact ⟨b, List.mem_cons_of_mem a hb, hfb⟩

/-! Account-manager lemmas. -/

theorem email_exists_of_mem (s : UMState) (email : String) (u : User)
    (hu : u ∈ s.users) (he : u.email = email) :
    email_exists s email = true := by
  simp only [email_exists, List.any_eq_true]
  exact ⟨u, hu, by simp [he]⟩

/-- C1: `add_user` with an email already present in the in-memory list fails
with the duplicate-email error (`ValueError: Email ... already registered`,
the DuplicateEmailError-kind condition, detected by a case-sensitive exact
string match over the in-memory list only) and leaves the whole manager
state, in particular the in-memory account list, unchanged. -/
theorem add_user_duplicate_rejected (s : UMState) (uid : String) (salt : Nat)
    (name email password : String) (h : ∃ u, u ∈ s.users ∧ u.email = email) :
    (add_user s uid salt name email password).1 =
      Except.error ("Email " ++ email ++ " already registered") ∧
    (add_user s uid salt name email password).2 = s := by
  obtain ⟨u, hu, he⟩ := h
  have hex : email_exists s email = true := email_exists_of_mem s email u hu he
  simp [add_user, hex]

/-- C1 at a concrete state: adding `uJohn`'s email again fails and leaves the
state untouched. -/
theorem add_user_duplicate_rejected_inst :
    (add_user sOne "u2" 9 "J" "john@example.com" "p").1 =
      Except.error ("Email " ++ "john@example.com" ++ " already registered") ∧
    (add_user sOne "u2" 9 "J" "john@example.com" "p").2 = sOne :=
  add_user_duplicate_rejected sOne "u2" 9 "J" "john@example.com" "p"
    ⟨uJohn, by decide, rfl⟩

/-- C2, counterexample to the claim as stated: `uJohn` (id `u1`) is present in
the system; `remove_user "u1"` returns true, yet a subsequent
`get_user_by_email` for `uJohn`'s email still returns the removed account,
because `remove_user` deletes only the `user_sessions:u1` cache key and the
`user:john@example.com` cache entry written by `add_user` survives. -/
theorem remove_user_stale_cache_cex :
    uJohn ∈ sOne.users ∧ uJohn.id = "u1" ∧
    (remove_user sOne "u1").1 = true ∧
    (get_user_by_email (remove_user sOne "u1").2 "john@example.com").1 =
      some uJohn := by
  refine ⟨by decide, rfl, rfl, by decide⟩

/-- C2, amended: `remove_user` always returns true (also for absent ids); it
removes every account with the given id from the in-memory list (so list
lookups no longer find it) and from the database collaborator, and deletes
the `user_sessions:{id}` cache key; it does not invalidate the
`user:{email}` cache entry, so a later `get_user_by_email` may still return
the removed account from the cache. -/
theorem remove_user_semantics (s : UMState) (user_id : String) :
    (remove_user s user_id).1 = true ∧
    (remove_user s user_id).2.users = s.users.filter (fun u => u.id ≠ user_id) ∧
    (remove_user s user_id).2.cache =
      cacheDelete s.cache ("user_sessions:" ++ user_id) ∧
    (remove_user s user_id).2.db = dbDeleteUser s.db user_id ∧
    (remove_user s user_id).2.session_timeout = s.session_timeout :=
  ⟨rfl, rfl, rfl, rfl, rfl⟩

/-! Properties of the clean stage. -/

theorem specClean_sublist (seen : List Value) (data : List Record) :
    (specClean seen data).Sublist data := by
  induction data generalizing seen with
  | nil => simp [specClean]
  | cons a rest ih =>
    by_cases h : recEmpty a ∨ pyGetD a "id" ∈ seen
    · simp only [specClean, if_pos h]
      exact (ih seen).cons a
    · simp only [specClean, if_neg h]
      exact (ih _).cons₂ a

theorem specClean_id_not_seen (seen : List Value) (data : List Record) :
    ∀ r ∈ specClean seen data, pyGetD r "id" ∉ seen := by
  induction data generalizing seen with
  | nil => simp [specClean]
  | cons a rest ih =>
    by_cases h : recEmpty a ∨ pyGetD a "id" ∈ seen
    · simp only [specClean, if_pos h]
      exact ih seen
    · simp only [specClean, if_neg h]
      intro r hr
      rcases List.mem_cons.mp hr with h1 | h2
      · subst h1
        exact fun hmem => h (Or.inr hmem)
      · intro hmem
        exact ih (pyGetD a "id" :: seen) r h2 (List.mem_cons_of_mem _ hmem)

theorem specClean_nonempty_mem (seen : List Value) (data : List Record) :
    ∀ r ∈ specClean seen data, ¬ recEmpty r := by
  induction data generalizing seen with
  | nil => simp [specClean]
  | cons a rest ih =>
    by_cases h : recEmpty a ∨ pyGetD a "id" ∈ seen
    · simp only [specClean, if_pos h]
      exact ih seen
    · simp only [specClean, if_neg h]
      intro r hr
      rcases List.mem_cons.mp hr with h1 | h2
      · subst h1
        exact fun he => h (Or.inl he)
      · exact ih _ r h2

theorem specClean_pairwise (seen : List Value) (data : List Record) :
    (specClean seen data).Pairwise (fun a b => pyGetD a "id" ≠ pyGetD b "id") := by
  induction data generalizing seen with
  | nil => simp [specClean]
  | cons a rest ih =>
    by_cases h : recEmpty a ∨ pyGetD a "id" ∈ seen
    · simp only [specClean, if_pos h]
      exact ih seen
    · simp only [specClean, if_neg h]
      refine List.Pairwise.cons ?_ (ih _)
      intro b hb heq
      exact specClean_id_not_seen _ rest b hb (heq ▸ List.mem_cons_self _ _)

theorem specClean_complete (seen : List Value) (data : List Record) :
    ∀ r ∈ data, ¬ recEmpty r →
      pyGetD r "id" ∈ seen ∨
      ∃ r2 ∈ specClean seen data, pyGetD r2 "id" = pyGetD r "id" := by
  induction data generalizing seen with
  | nil =>
    intro r hr
    cases hr
  | cons a rest ih =>
    intro r hr hne
    by_cases h : recEmpty a ∨ pyGetD a "id" ∈ seen
    · simp only [specClean, if_pos h]
      rcases List.mem_cons.mp hr with h1 | h2
      · subst h1
        rcases h with he | hs
        · exact absurd he hne
        · exact Or.inl hs
      · exact ih seen r h2 hne
    · simp only [specClean, if_neg h]
      rcases List.mem_cons.mp hr with h1 | h2
      · subst h1
        exact Or.inr ⟨r, List.mem_cons_self _ _, rfl⟩
      · rcases ih (pyGetD a "id" :: seen) r h2 hne with hs | ⟨r2, hr2, heq⟩
        · rcases List.mem_cons.mp hs with h1 | h2s
          · exact Or.inr ⟨a, List.mem_cons_self _ _, h1.symm⟩
          · exact Or.inl h2s
        · exact Or.inr ⟨r2, List.mem_cons_of_mem _ hr2, heq⟩

theorem cleanLoop_ok (data : List Record) (seen : List Value)
    (acc out : List Record) (h : cleanLoop seen acc data = Except.ok out) :
    out = acc ++ specClean seen data := by
  induction data generalizing seen acc with
  | nil =>
    unfold cleanLoop at h
    cases h
    simp [specClean]
  | cons a rest ih =>
    unfold cleanLoop at h
    by_cases hc : recEmpty a ∨ pyGetD a "id" ∈ seen
    · rw [if_pos hc] at h
      simp only [specClean, if_pos hc]
      exact ih _ _ h
    · rw [if_neg hc] at h
      cases hg : recGet a "id" with
      | none =>
        rw [hg] at h
        cases h
      | some v =>
        rw [hg] at h
        have hout := ih _ _ h
        have hv : pyGetD a "id" = v := by simp [pyGetD, hg]
        simp only [specClean]
        rw [if_neg hc, hout, hv]
        simp

theorem clean_data_ok (data out : List Record)
    (h : clean_data data = Except.ok out) : out = specClean [] data := by
  have := cleanLoop_ok data [] [] out h
  simpa using this

/-- C4: when `clean` returns, its output keeps, in order, exactly the first
occurrence of each id among the truthy records (`specClean`, seeded with an
empty seen-set, so no de-duplication state crosses calls): the output is a
subsequence of the input, contains no falsy record, has pairwise distinct id
values, and represents the id of every truthy input record, so two input
records sharing an id yield exactly one surviving record. -/
theorem clean_data_dedup_first (data out : List Record)
    (h : clean_data data = Except.ok out) :
    out = specClean [] data ∧
    out.Sublist data ∧
    (∀ r ∈ out, ¬ recEmpty r) ∧
    out.Pairwise (fun a b => pyGetD a "id" ≠ pyGetD b "id") ∧
    (∀ r ∈ data, ¬ recEmpty r →
      ∃ r2 ∈ out, pyGetD r2 "id" = pyGetD r "id") := by
  have he : out = specClean [] data := clean_data_ok data out h
  subst he
  refine ⟨rfl, specClean_sublist _ _, specClean_nonempty_mem _ _,
    specClean_pairwise _ _, ?_⟩
  intro r hr hne
  rcases specClean_complete [] data r hr hne with hs | hex
  · exact absurd hs (List.not_mem_nil _)
  · exact hex

/-- C4 at a concrete batch: a falsy record and a duplicated id 1; only the
first id-1 record survives. -/
theorem clean_data_dedup_first_inst :
    [rBob] = specClean [] [[], rBob, rDup] ∧
    List.Sublist [rBob] [[], rBob, rDup] ∧
    (∀ r ∈ [rBob], ¬ recEmpty r) ∧
    List.Pairwise (fun a b => pyGetD a "id" ≠ pyGetD b "id") [rBob] ∧
    (∀ r ∈ [[], rBob, rDup], ¬ recEmpty r →
      ∃ r2 ∈ [rBob], pyGetD r2 "id" = pyGetD r "id") :=
  clean_data_dedup_first [[], rBob, rDup] [rBob] rfl

/-! Inversion lemmas for `process`. -/

theorem process_ok_elim (st : DPState) (ts : String) (data out : List Record)
    (st2 : DPState) (h : process st ts data = (Except.ok out, st2)) :
    ∃ cleaned transformed,
      clean_data data = Except.ok cleaned ∧
      transform ts cleaned = Except.ok transformed ∧
      enrich (validate transformed) = Except.ok out ∧
      st2 = { st with processed_count := st.processed_count + out.length } := by
  unfold process at h
  split at h
  · simp at h
  · split at h
    · simp at h
    · simp only [] at h
      split at h
      · simp at h
      · rename_i x1 cleaned hc x2 transformed ht x3 enriched he
        rw [Prod.mk.injEq] at h
        obtain ⟨hout, hst⟩ := h
        injection hout with hout
        subst hout
        exact ⟨cleaned, transformed, hc, ht, he, hst.symm⟩

theorem process_error_state (st : DPState) (ts : String) (data : List Record)
    (e : String) (st2 : DPState)
    (h : process st ts data = (Except.error e, st2)) : st2 = st := by
  unfold process at h
  split at h
  · rw [Prod.mk.injEq] at h
    exact h.2.symm
  · split at h
    · rw [Prod.mk.injEq] at h
      exact h.2.symm
    · simp only [] at h
      split at h
      · rw [Prod.mk.injEq] at h
        exact h.2.symm
      · simp at h

/-- C3: `process` applies clean, transform, validate, enrich in that fixed
order; on success the new state increments `processed_count` by exactly the
length of the final (enriched) output and changes nothing else; if any stage
raises, the call fails and the processor state, in particular the counter, is
unchanged. -/
theorem process_order_and_counter (st : DPState) (ts : String)
    (data : List Record) :
    (∀ out st2, process st ts data = (Except.ok out, st2) →
      (∃ cleaned transformed,
        clean_data data = Except.ok cleaned ∧
        transform ts cleaned = Except.ok transformed ∧
        enrich (validate transformed) = Except.ok out) ∧
      st2 = { st with processed_count := st.processed_count + out.length }) ∧
    (∀ e st2, process st ts data = (Except.error e, st2) → st2 = st) := by
  constructor
  · intro out st2 h
    obtain ⟨cleaned, transformed, hc, ht, he, hst⟩ :=
      process_ok_elim st ts data out st2 h
    exact ⟨⟨cleaned, transformed, hc, ht, he⟩, hst⟩
  · intro e st2 h
    exact process_error_state st ts data e st2 h

/-- C3 at a concrete batch: the demo configuration processing `[rBob]` runs
the four stages and bumps the counter from 0 to 1. -/
theorem process_order_and_counter_inst :
    ((∃ cleaned transformed,
        clean_data [rBob] = Except.ok cleaned ∧
        transform "T" cleaned = Except.ok transformed ∧
        enrich (validate transformed) = Except.ok [rBobOut]) ∧
      ({ batch_size := 500, max_retries := 5, processed_count := 1 } : DPState) =
        { stDemo with
            processed_count := stDemo.processed_count + [rBobOut].length }) :=
  (process_order_and_counter stDemo "T" [rBob]).1 [rBobOut]
    { batch_size := 500, max_retries := 5, processed_count := 1 } rfl

/-- C9: the error branch of the embedded clean function is reachable: a
truthy record with no `id` key makes `clean_data` (and hence `process`) raise
`KeyError` rather than drop or keep the record, so `clean` is not total over
arbitrary record batches. -/
theorem clean_data_keyerror_reachable (r : Record) (h1 : ¬ recEmpty r)
    (h2 : recGet r "id" = none) :
    clean_data [r] = Except.error "KeyError: id" ∧
    ∀ st ts, (process st ts [r]).1 = Except.error "KeyError: id" := by
  have hc : clean_data [r] = Except.error "KeyError: id" := by
    unfold clean_data cleanLoop
    rw [if_neg (by simp [h1]), h2]
  refine ⟨hc, fun st ts => ?_⟩
  unfold process
  rw [hc]

/-- C9 at a concrete record: `rNoId` is truthy, lacks `id`, and raises. -/
theorem clean_data_keyerror_reachable_inst :
    clean_data [rNoId] = Except.error "KeyError: id" ∧
    ∀ st ts, (process st ts [rNoId]).1 = Except.error "KeyError: id" :=
  clean_data_keyerror_reachable rNoId (by decide) rfl

/-- C5: for every batch that `process` completes on, the output is no longer
than the input, and every output record carries `processed_at` (the run's
timestamp), `normalized_name` (the record's `name`, trimmed and lower-cased),
`enriched = true`, and the fixed `metadata` mapping
`source = "api", version = "1.0"`. -/
theorem process_output_shape (st : DPState) (ts : String)
    (data out : List Record) (st2 : DPState)
    (h : process st ts data = (Except.ok out, st2)) :
    out.length ≤ data.length ∧
    ∀ r ∈ out,
      recGet r "processed_at" = some (Value.vStr ts) ∧
      (∃ s, recGet r "name" = some (Value.vStr s) ∧
        recGet r "normalized_name" = some (Value.vStr s.trim.toLower)) ∧
      recGet r "enriched" = some (Value.vBool true) ∧
      recGet r "metadata" =
        some (Value.vMap [("source", "api"), ("version", "1.0")]) := by
  obtain ⟨cleaned, transformed, hc, ht, he, _⟩ :=
    process_ok_elim st ts data out st2 h
  constructor
  · have l1 : cleaned.Sublist data := by
      rw [clean_data_ok data cleaned hc]
      exact specClean_sublist _ _
    have l2 : transformed.length = cleaned.length := mapE_ok_length _ _ _ ht
    have l3 : (validate transformed).length ≤ transformed.length :=
      List.length_filter_le _ _
    have l4 : out.length = (validate transformed).length :=
      mapE_ok_length _ _ _ he
    calc out.length = (validate transformed).length := l4
      _ ≤ transformed.length := l3
      _ = cleaned.length := l2
      _ ≤ data.length := l1.length_le
  · intro r hr
    obtain ⟨r2, hr2mem, hr2⟩ := mapE_ok_mem _ _ _ he r hr
    have hr2v : r2 ∈ transformed ∧ is_valid_record r2 = true := by
      simpa [validate] using List.mem_filter.mp hr2mem
    obtain ⟨r0, _, hr0⟩ := mapE_ok_mem _ _ _ ht r2 hr2v.1
    simp only [transform1] at hr0
    split at hr0
    · -- name key absent: contradicts validity of r2
      rename_i hn
      injection hr0 with hr0
      have hnone : recGet r2 "name" = none := by
        rw [← hr0, recGet_recSet_ne _ _ _ _ (by decide)]
        exact hn
      have hk := hr2v.2
      simp [is_valid_record, hasKey, hnone] at hk
    · -- name is a string s
      rename_i s hn
      injection hr0 with hr0
      simp only [enrich1] at hr2
      split at hr2
      · rename_i w hid
        injection hr2 with hr2
        refine ⟨?_, ⟨s, ?_, ?_⟩, ?_, ?_⟩
        · rw [← hr2, recGet_recSet_ne _ _ _ _ (by decide),
            recGet_recSet_ne _ _ _ _ (by decide), ← hr0,
            recGet_recSet_ne _ _ _ _ (by decide), recGet_recSet_same]
        · rw [← hr2, recGet_recSet_ne _ _ _ _ (by decide),
            recGet_recSet_ne _ _ _ _ (by decide), ← hr0,
            recGet_recSet_ne _ _ _ _ (by decide)]
          exact hn
        · rw [← hr2, recGet_recSet_ne _ _ _ _ (by decide),
            recGet_recSet_ne _ _ _ _ (by decide), ← hr0, recGet_recSet_same]
        · rw [← hr2, recGet_recSet_ne _ _ _ _ (by decide), recGet_recSet_same]
        · rw [← hr2, recGet_recSet_same]
          rfl
      · exact absurd hr2 (by simp)
    · exact absurd hr0 (by simp)

/-- C5 at a concrete batch: the pipeline output for `[rBob]`. -/
theorem process_output_shape_inst :
    ([rBobOut] : List Record).length ≤ ([rBob] : List Record).length ∧
    ∀ r ∈ [rBobOut],
      recGet r "processed_at" = some (Value.vStr "T") ∧
      (∃ s, recGet r "name" = some (Value.vStr s) ∧
        recGet r "normalized_name" = some (Value.vStr s.trim.toLower)) ∧
      recGet r "enriched" = some (Value.vBool true) ∧
      recGet r "metadata" =
        some (Value.vMap [("source", "api"), ("version", "1.0")]) :=
  process_output_shape stDemo "T" [rBob] [rBobOut]
    { batch_size := 500, max_retries := 5, processed_count := 1 } rfl

/-! Frame lemmas for the read operations. -/

theorem get_user_by_email_frame (s : UMState) (email : String) :
    (get_user_by_email s email).2.users = s.users ∧
    (get_user_by_email s email).2.db = s.db ∧
    (get_user_by_email s email).2.session_timeout = s.session_timeout := by
  unfold get_user_by_email
  split
  · exact ⟨rfl, rfl, rfl⟩
  · split
    · exact ⟨rfl, rfl, rfl⟩
    · exact ⟨rfl, rfl, rfl⟩

theorem authenticate_frame (s : UMState) (tok email password : String) :
    (authenticate s tok email password).2.users = s.users ∧
    (authenticate s tok email password).2.db = s.db ∧
    (authenticate s tok email password).2.session_timeout =
      s.session_timeout := by
  obtain ⟨h1, h2, h3⟩ := get_user_by_email_frame s email
  simp only [authenticate]
  split
  · exact ⟨h1, h2, h3⟩
  · split
    · exact ⟨by simp [create_session, h1], by simp [create_session, h2],
        by simp [create_session, h3]⟩
    · exact ⟨h1, h2, h3⟩

/-- C10: `authenticate` and `get_user_by_email` leave the in-memory user
list, the session timeout and the database collaborator of the manager
unchanged; their only state effect is on the cache collaborator. -/
theorem lookup_ops_frame (s : UMState) (tok email password : String) :
    (authenticate s tok email password).2.users = s.users ∧
    (authenticate s tok email password).2.session_timeout =
      s.session_timeout ∧
    (authenticate s tok email password).2.db = s.db ∧
    (get_user_by_email s email).2.users = s.users ∧
    (get_user_by_email s email).2.session_timeout = s.session_timeout ∧
    (get_user_by_email s email).2.db = s.db := by
  obtain ⟨a1, a2, a3⟩ := authenticate_frame s tok email password
  obtain ⟨g1, g2, g3⟩ := get_user_by_email_frame s email
  exact ⟨a1, a3, a2, g1, g3, g2⟩

/-- C8: `get_user_by_email` is a read-through cache lookup: on a cache hit it
returns the cached account with the state untouched and its result does not
depend on the database; on a cache miss it consults the database, and exactly
when the database returns an account it writes that account back into the
cache before returning it; when both miss it returns none and changes
nothing. -/
theorem get_user_by_email_read_through (s : UMState) (email : String) :
    (∀ u, cacheGet s.cache ("user:" ++ email) = some (CVal.user u) →
      get_user_by_email s email = (some u, s) ∧
      ∀ db2, (get_user_by_email { s with db := db2 } email).1 = some u) ∧
    (∀ u, cacheGet s.cache ("user:" ++ email) = none →
      dbQueryUserByEmail s.db email = some u →
      get_user_by_email s email =
        (some u,
          { s with
              cache := cacheSet s.cache ("user:" ++ email) (CVal.user u) })) ∧
    (cacheGet s.cache ("user:" ++ email) = none →
      dbQueryUserByEmail s.db email = none →
      get_user_by_email s email = (none, s)) := by
  refine ⟨?_, ?_, ?_⟩
  · intro u hu
    constructor
    · simp [get_user_by_email, hu]
    · intro db2
      simp [get_user_by_email, hu]
  · intro u hc hdb
    simp [get_user_by_email, hc, hdb]
  · intro hc hdb
    simp [get_user_by_email, hc, hdb]

/-- C8 at concrete states: a cache hit (with an emptied database), a cache
miss repopulated from the database, and a double miss. -/
theorem get_user_by_email_read_through_inst :
    (get_user_by_email sOne "john@example.com" = (some uJohn, sOne) ∧
     (get_user_by_email { sOne with db := [] } "john@example.com").1 =
       some uJohn) ∧
    get_user_by_email sDbOnly "john@example.com" =
      (some uJohn,
        { sDbOnly with
            cache := cacheSet sDbOnly.cache ("user:" ++ "john@example.com")
              (CVal.user uJohn) }) ∧
    get_user_by_email (initUM [] []) "john@example.com" =
      (none, initUM [] []) :=
  ⟨⟨((get_user_by_email_read_through sOne "john@example.com").1 uJohn
      (by decide)).1,
    ((get_user_by_email_read_through sOne "john@example.com").1 uJohn
      (by decide)).2 []⟩,
   (get_user_by_email_read_through sDbOnly "john@example.com").2.1 uJohn
     rfl (by decide),
   (get_user_by_email_read_through (initUM [] []) "john@example.com").2.2
     rfl rfl⟩

/-- C6: `authenticate` returns `(true, token)` with the freshly minted
non-empty session token when the looked-up user's stored hash was built from
the supplied password; `(false, none)` when the stored hash was built from a
different password; and `(false, none)` when the email is unknown to both the
cache and the database. -/
theorem authenticate_outcomes (s : UMState) (tok email password : String) :
    (∀ u salt2, (get_user_by_email s email).1 = some u →
      u.password_hash = hash_password password salt2 → tok ≠ "" →
      (authenticate s tok email password).1 = (true, some tok) ∧ tok ≠ "") ∧
    (∀ u pw2 salt2, (get_user_by_email s email).1 = some u →
      u.password_hash = hash_password pw2 salt2 → pw2 ≠ password →
      (authenticate s tok email password).1 = (false, none)) ∧
    (cacheGet s.cache ("user:" ++ email) = none →
      dbQueryUserByEmail s.db email = none →
      (authenticate s tok email password).1 = (false, none)) := by
  refine ⟨?_, ?_, ?_⟩
  · intro u salt2 hu hhash htok
    refine ⟨?_, htok⟩
    simp [authenticate, hu, hhash, verify_password, hash_password,
      create_session]
  · intro u pw2 salt2 hu hhash hne
    simp [authenticate, hu, hhash, verify_password, hash_password,
      beq_iff_eq, Ne.symm hne]
  · intro hc hdb
    have hnone : (get_user_by_email s email).1 = none := by
      simp [get_user_by_email, hc, hdb]
    simp [authenticate, hnone]

/-- C6 at concrete states: correct password, wrong password, unknown email. -/
theorem authenticate_outcomes_inst :
    ((authenticate sOne "tok1" "john@example.com" "securepass123").1 =
      (true, some "tok1") ∧ "tok1" ≠ "") ∧
    (authenticate sOne "tok1" "john@example.com" "wrongpass").1 =
      (false, none) ∧
    (authenticate (initUM [] []) "tok1" "nobody@example.com" "p").1 =
      (false, none) :=
  ⟨(authenticate_outcomes sOne "tok1" "john@example.com" "securepass123").1
      uJohn 7 (by decide) rfl (by decide),
   (authenticate_outcomes sOne "tok1" "john@example.com" "wrongpass").2.1
      uJohn "securepass123" 7 (by decide) rfl (by decide),
   (authenticate_outcomes (initUM [] []) "tok1" "nobody@example.com" "p").2.2
      rfl rfl⟩

/-! Preservation of email uniqueness. -/

theorem runOp_emailsUnique (s : UMState) (op : Op)
    (h : emailsUnique s.users) : emailsUnique (runOp s op).users := by
  cases op with
  | addUser uid salt name email password =>
    simp only [runOp, add_user]
    by_cases hex : email_exists s email = true
    · rw [if_pos hex]
      exact h
    · rw [if_neg hex]
      refine List.pairwise_append.mpr ⟨h, List.pairwise_singleton _ _, ?_⟩
      intro a ha b hb heq
      have hb2 := List.mem_singleton.mp hb
      have : email_exists s email = true :=
        email_exists_of_mem s email a ha (by rw [heq, hb2])
      exact hex this
  | removeUser uid =>
    simp only [runOp, remove_user]
    exact List.Pairwise.sublist (List.filter_sublist _) h
  | auth tok email password =>
    simp only [runOp]
    rw [(authenticate_frame s tok email password).1]
    exact h
  | getByEmail email =>
    simp only [runOp]
    rw [(get_user_by_email_frame s email).1]
    exact h

theorem runOps_emailsUnique (ops : List Op) :
    ∀ s : UMState, emailsUnique s.users → emailsUnique (runOps s ops).users := by
  induction ops with
  | nil => exact fun s h => h
  | cons op rest ih =>
    intro s h
    exact ih _ (runOp_emailsUnique s op h)

/-- C7: starting from a freshly initialised manager (empty in-memory list,
arbitrary collaborator contents), after any sequence of `add_user`,
`remove_user`, `authenticate` and `get_user_by_email` calls no two accounts
of the in-memory list share an email. -/
theorem email_uniqueness_invariant (db : List User)
    (cache : List (String × CVal)) (ops : List Op) :
    emailsUnique (runOps (initUM db cache) ops).users :=
  runOps_emailsUnique ops (initUM db cache) (by simp [initUM, emailsUnique])
